import Mathlib

/-!
Shallow embedding of `src/SeaBattle.py` (the BattleSea repository).

Randomness (`randint`, `choice`) is modelled by passing the drawn values
explicitly: orientation draws as a list `tps`, placement coordinate draws as
per-ship lists of candidate coordinates (the unbounded retry loop becomes a
recursion over that list, returning `none` when it is exhausted), and
movement direction draws as a list `dirs`.

Exceptions are modelled by `Option`/outcome values: a Python `raise` that a
caller catches corresponds to a `none` / error constructor, and the mutated
Python objects are modelled by returning the updated functional state.
-/

namespace BattleSea

/-- A `Cell`'s `_value` is a `Bool` (`true` = intact); a `Ship` holds its
cells as `cells : List Bool`. `Cell.hit` (sets `_value = False` and calls
`ship.hurt()`) is inlined into `Board.hit` below, which updates the owning
ship in one step, exactly as the shared mutable objects do in the source. -/
structure Ship where
  length : Nat
  tp : Nat
  x : Int
  y : Int
  is_move : Bool
  cells : List Bool
deriving DecidableEq, Repr

namespace Ship

/-- `Ship.__init__`: fresh ship, all cells intact, movable; the source leaves
`x`/`y` as `None` until placement, here initialised to 0 (placement always
sets them before first use). -/
def new (length : Nat) (tp : Nat) : Ship :=
  { length := length, tp := tp, x := 0, y := 0
    is_move := true, cells := List.replicate length true }

/-- `Ship.set_start_coords`. -/
def set_start_coords (s : Ship) (x y : Int) : Ship :=
  { s with x := x, y := y }

/-- `Ship.get_finish_coords`: `(length, 1)` extent if horizontal (`tp == 1`),
else `(1, length)`. -/
def get_finish_coords (s : Ship) : Int × Int :=
  let wh := if s.tp = 1 then ((s.length : Int), (1 : Int)) else ((1 : Int), (s.length : Int))
  (s.x + wh.1, s.y + wh.2)

/-- `Ship.hurt`: the movement flag only ever goes to `False`. -/
def hurt (s : Ship) : Ship :=
  { s with is_move := false }

/-- `Ship.move`: raises `ShipMoveError` (here `none`) when the movement flag
is down; otherwise shifts along the long axis. -/
def move (s : Ship) (direction : Int) : Option Ship :=
  if s.is_move = false then none
  else if s.tp = 1 then some { s with x := s.x + direction }
  else some { s with y := s.y + direction }

/-- `Ship.is_collide`: closed-box intersection test. -/
def is_collide (s other : Ship) : Bool :=
  let f := s.get_finish_coords
  let f2 := other.get_finish_coords
  decide (s.x ≤ f2.1) && decide (f.1 ≥ other.x) &&
    decide (s.y ≤ f2.2) && decide (f.2 ≥ other.y)

/-- `Ship.is_out_board`: some of the four boundary coordinates
(start x/y, finish x/y) falls outside `[0, size)`. -/
def is_out_board (s : Ship) (size : Nat) : Bool :=
  let f := s.get_finish_coords
  [s.x, s.y, f.1, f.2].any fun p => !(decide (0 ≤ p) && decide (p < (size : Int)))

/-- `Ship.__bool__`: `any(self._cells)` — some cell is intact. -/
def alive (s : Ship) : Bool :=
  s.cells.any id

/-- The grid positions a ship covers, read off `Board.get_board`'s fill
loops: row `y ∈ [y1, y2)`, column `x ∈ [x1, x2)`. -/
def occupies (s : Ship) (y x : Int) : Bool :=
  let f := s.get_finish_coords
  decide (s.y ≤ y) && decide (y < f.2) && decide (s.x ≤ x) && decide (x < f.1)

/-- The index `i` that `Board.get_board`'s fill loops assign to position
`(y, x)` of this ship: `i` increments x-fastest, so `i = (y-y1)*width + (x-x1)`. -/
def cellIndex (s : Ship) (y x : Int) : Nat :=
  let f := s.get_finish_coords
  ((y - s.y) * (f.1 - s.x) + (x - s.x)).toNat

end Ship

instance : Inhabited Ship := ⟨Ship.new 0 1⟩

structure Board where
  size : Nat
  ships : List Ship
deriving DecidableEq, Repr

/-- Outcome of `Board.hit`: the two raised errors, or the printed message
(`Ранен!` = wounded, `Убит!` = sunk, `Мимо!` = miss). -/
inductive HitOutcome
  | indexError
  | shootError
  | wounded
  | sunk
  | miss
deriving DecidableEq, Repr

/-- What `Board.hit` returns to its caller: `True` on wounded/sunk, `False`
on a miss, nothing (an exception propagates) on the two errors. -/
def HitOutcome.returnValue : HitOutcome → Option Bool
  | .indexError => none
  | .shootError => none
  | .wounded => some true
  | .sunk => some true
  | .miss => some false

namespace Board

/-- `any(ship.is_collide(other) for other in self._ships if other != ship)`
with the identity exclusion rendered as exclusion of the list index `i`
(ships are compared by reference identity in the source; `j` counts the
position of the head of `rest` in the original list). -/
def collideAnyExcl (s : Ship) (rest : List Ship) (j : Nat) (i : Nat) : Bool :=
  match rest with
  | [] => false
  | t :: ts => ((j != i) && s.is_collide t) || collideAnyExcl s ts (j + 1) i

/-- `Board._check_location_ship` as called from `Board._move_ship`, where the
checked ship sits at index `i` of the fleet and is skipped by identity. -/
def check_location_excl (b : Board) (i : Nat) (s : Ship) : Bool :=
  s.is_out_board b.size || collideAnyExcl s b.ships 0 i

/-- `Board._check_location_ship` as called from `Board._placement_ship`,
where the candidate ship is not yet in `self._ships`, so the identity filter
keeps every tracked ship. -/
def check_location_new (b : Board) (s : Ship) : Bool :=
  s.is_out_board b.size || b.ships.any fun other => s.is_collide other

/-- `Board._placement_ship`: try the drawn coordinates in order until one
passes the check, then append; `none` when the draws run out (the source
loops forever on fresh draws). -/
def placement_ship (b : Board) (s : Ship) : List (Int × Int) → Option Board
  | [] => none
  | c :: cs =>
    let s' := s.set_start_coords c.1 c.2
    if b.check_location_new s' then b.placement_ship s' cs
    else some { b with ships := b.ships ++ [s'] }

/-- The loop of `Board.create`: place each ship of the built fleet in order,
consuming one list of coordinate draws per ship. -/
def placeAll (b : Board) : List Ship → List (List (Int × Int)) → Option Board
  | [], _ => some b
  | _ :: _, [] => none
  | s :: rest, cs :: crest =>
    match b.placement_ship s cs with
    | none => none
    | some b' => b'.placeAll rest crest

/-- `Board._NUMS_SHIPS = (4, 1), (3, 2), (2, 3), (1, 4)`. -/
def NUMS_SHIPS : List (Nat × Nat) := [(4, 1), (3, 2), (2, 3), (1, 4)]

/-- The lengths of the fleet built by `Board.create`'s comprehension:
`[Ship(length, ...) for length, nums in _NUMS_SHIPS for _ in range(nums)]`. -/
def fleetLengths : List Nat :=
  NUMS_SHIPS.flatMap fun p => List.replicate p.2 p.1

/-- The fleet of `Board.create`, with the `randint(1, 2)` orientation draws
supplied as `tps` (one per ship, in comprehension order). -/
def mkFleet (tps : List Nat) : List Ship :=
  (fleetLengths.zip tps).map fun p => Ship.new p.1 p.2

/-- `Board.create` (invoked by `Board.__init__`): build the fleet, then place
every ship. -/
def create (size : Nat) (tps : List Nat) (coords : List (List (Int × Int))) : Option Board :=
  Board.placeAll { size := size, ships := [] } (mkFleet tps) coords

/-- Scan of `Board.get_board`'s write loops: the fill iterates ships in
order and later ships overwrite earlier cells, so the cell visible at
`(y, x)` belongs to the last ship occupying it. Returns the fleet index,
the ship, and the cell index within the ship. -/
def findCell (rest : List Ship) (j : Nat) (y x : Int) (acc : Option (Nat × Ship × Nat)) :
    Option (Nat × Ship × Nat) :=
  match rest with
  | [] => acc
  | s :: ts =>
    findCell ts (j + 1) y x (if s.occupies y x then some (j, s, s.cellIndex y x) else acc)

/-- `self.get_board[y][x]` restricted to the information `Board.hit` uses:
`none` is the background marker `'*'`, `some (i, s, k)` is the `Cell` object
`s._cells[k]` of the ship at fleet index `i`. -/
def cellAt (b : Board) (y x : Int) : Option (Nat × Ship × Nat) :=
  findCell b.ships 0 y x none

/-- `Board.hit(y, x)`: bounds check (else `IndexBoardError`), cell lookup;
a struck cell raises `ShootError`; otherwise `Cell.hit` runs (cell goes
dead, owning ship's movement flag drops) and the message is `wounded` if the
ship still has an intact cell, `sunk` otherwise; background is a miss.
The returned board is the state after the call: unchanged on every path
except the successful strike, as in the source where the `raise` happens
before any mutation. -/
def hit (b : Board) (y x : Int) : Board × HitOutcome :=
  if ¬ (0 ≤ x ∧ x < (b.size : Int) ∧ 0 ≤ y ∧ y < (b.size : Int)) then (b, .indexError)
  else
    match b.cellAt y x with
    | none => (b, .miss)
    | some (i, s, k) =>
      if s.cells.getD k true = false then (b, .shootError)
      else
        let s' := { s.hurt with cells := s.cells.set k false }
        ({ b with ships := b.ships.set i s' },
         if s'.alive then .wounded else .sunk)

/-- One guarded attempt of `Board._move_ship` on the ship at index `i`:
`ship.move(direction)` then the location check; any `ShipMoveError` makes
the `DefenderMoveShip` guard restore the start coordinates, which (since
`move` only touches them) leaves the ship exactly as before — modelled by
returning `none` and keeping the board. The moved ship's own (stale) slot is
skipped by the identity filter of `_check_location_ship`. -/
def moveAttempt (b : Board) (i : Nat) (dir : Int) : Option Ship :=
  match b.ships[i]? with
  | none => none
  | some s =>
    match s.move dir with
    | none => none
    | some s' => if b.check_location_excl i s' then none else some s'

/-- The body of `Board.move_ships`' loop for one ship: try the drawn
direction, on `SeaBattleError` try the opposite one, on a second failure
leave the ship as it was. -/
def moveShipAt (b : Board) (i : Nat) (dir : Int) : Board :=
  match b.moveAttempt i dir with
  | some s' => { b with ships := b.ships.set i s' }
  | none =>
    match b.moveAttempt i (-dir) with
    | some s' => { b with ships := b.ships.set i s' }
    | none => b

/-- `Board.move_ships`: process each ship in fleet order; `dirs` supplies the
`choice((1, -1))` draw for each. -/
def move_ships (b : Board) (dirs : List Int) : Board :=
  (List.range b.ships.length).foldl (fun bb i => bb.moveShipAt i (dirs.getD i 1)) b

/-- `Board.__bool__`: `any(self._ships)` — some ship is alive. -/
def aliveB (b : Board) : Bool :=
  b.ships.any Ship.alive

end Board

/-- The operations a `Board` undergoes after construction: `move_ships()`
calls (with their direction draws) and `hit()` calls. -/
inductive Op
  | moveShips (dirs : List Int)
  | hit (y x : Int)
deriving DecidableEq, Repr

def Board.applyOp (b : Board) : Op → Board
  | .moveShips dirs => b.move_ships dirs
  | .hit y x => (b.hit y x).1

/-- A board after a sequence of post-construction operations. -/
def Board.run (b : Board) (ops : List Op) : Board :=
  ops.foldl Board.applyOp b

/-! ### Human input parsing (`Human.shoot`) -/

/-- `string.ascii_uppercase`. -/
def asciiUppercase : List Char :=
  ['A', 'B', 'C', 'D', 'E', 'F', 'G', 'H', 'I', 'J', 'K', 'L', 'M',
   'N', 'O', 'P', 'Q', 'R', 'S', 'T', 'U', 'V', 'W', 'X', 'Y', 'Z']

/-- The parsing step of `Human.shoot`:
`y, x = input(...).upper()` unpacks the entered string into exactly two
characters (any other length raises the caught `ValueError`); then
`y not in ascii_uppercase or not x.isdigit()` raises `ValueError`; on
success the shot is `hit(ascii_uppercase.index(y), int(x) - 1)`. -/
def parseShot (s : List Char) : Option (Nat × Int) :=
  match s with
  | [cy, cx] =>
    let cy' := cy.toUpper
    let cx' := cx.toUpper
    if cy' ∈ asciiUppercase ∧ cx'.isDigit then
      some (asciiUppercase.indexOf cy', ((cx'.toNat : Int) - ('0'.toNat : Int)) - 1)
    else none
  | _ => none

/-- One attempt of `Human.shoot` on input `s`: `none` means the attempt was
rejected (malformed input → `ValueError`, or the board raised
`IndexBoardError`/`ShootError`) and the prompt is retried; `some` carries the
board after the shot and the value `hit` returned. -/
def Board.humanShootStep (b : Board) (s : List Char) : Option (Board × Bool) :=
  match parseShot s with
  | none => none
  | some rc =>
    let br := b.hit (rc.1 : Int) rc.2
    match br.2.returnValue with
    | none => none
    | some res => some (br.1, res)

/-- `Human.shoot` over a stream of entered lines: recurse past every rejected
attempt. A successful attempt returns the hit's value; a retry discards the
recursive call's value (the source's `self.shoot(player)` after the `except`
blocks has no `return`, so the retried shot's board effects survive but the
caller sees `None`). An exhausted stream (`none` result, board unchanged)
stands for the source blocking on further input. -/
def Board.humanShoot (b : Board) : List (List Char) → Board × Option Bool
  | [] => (b, none)
  | s :: rest =>
    match b.humanShootStep s with
    | some br => (br.1, some br.2)
    | none => ((Board.humanShoot b rest).1, none)

/-! ### Game controller (`SeaBattle`) -/

inductive Turn
  | human
  | ai
deriving DecidableEq, Repr

/-- The state the controller's turn logic touches: the two players' boards
and `self._turn`. -/
structure GameState where
  humanBoard : Board
  aiBoard : Board
  turn : Turn
deriving DecidableEq, Repr

/-- `SeaBattle._move_ships`: `for board in self._ai.board, self._human.board:
board.move_ships()`, with each board's direction draws supplied. -/
def GameState.moveShipsBoth (g : GameState) (dirsAI dirsHuman : List Int) : GameState :=
  { g with aiBoard := g.aiBoard.move_ships dirsAI
           humanBoard := g.humanBoard.move_ships dirsHuman }

/-- `SeaBattle._change_turn`: hand the turn to the other player; when it
comes back to the human, first move the ships of both boards. -/
def GameState.changeTurn (g : GameState) (dirsAI dirsHuman : List Int) : GameState :=
  if g.turn = Turn.human then { g with turn := Turn.ai }
  else { g.moveShipsBoth dirsAI dirsHuman with turn := Turn.human }

/-- One iteration of `SeaBattle.start`'s loop after the active player's shot
call returned `shotResult`: `if not self._player_turn(self._turn):
self._change_turn()`. `_player_turn` returns the `shoot` call's value, which
is three-valued: `some true` (the first attempt hit), `some false` (the
first attempt missed), or `none` — both `AI.shoot`'s `except ShootError`
branch and `Human.shoot`'s `except` handlers end in a recursive
`self.shoot(player)` whose result is discarded, so every retried call
returns Python's `None` (cf. `Board.humanShoot`). `not` is true of both
`False` and `None`, so the turn changes unless the call returned `True`. -/
def GameState.gameStep (g : GameState) (shotResult : Option Bool)
    (dirsAI dirsHuman : List Int) : GameState :=
  if shotResult = some true then g else g.changeTurn dirsAI dirsHuman

/-! ### Concrete sample data (used by witnesses and counterexamples) -/

/-- Orientation draws: ten horizontal ships. -/
def sampleTps : List Nat := List.replicate 10 1

/-- Coordinate draws: one (immediately valid) draw per ship. -/
def sampleCoords : List (List (Int × Int)) :=
  [[(0, 0)], [(6, 0)], [(0, 2)], [(5, 2)], [(0, 4)], [(4, 4)], [(8, 4)],
   [(0, 6)], [(3, 6)], [(6, 6)]]

/-- A fully constructed default-size board. -/
def sampleBoard : Board :=
  (Board.create 10 sampleTps sampleCoords).getD { size := 10, ships := [] }

/-- A board whose only ship has length 1 at `(3, 3)` (the round-trip
scenario of the spec). -/
def oneShipBoard : Board :=
  { size := 10
    ships := [{ length := 1, tp := 1, x := 3, y := 3, is_move := true, cells := [true] }] }

/-- `oneShipBoard` after its single cell has been struck. -/
def oneShipStruck : Board := (oneShipBoard.hit 3 3).1

/-- A board where ship 0 (length 1 at `(0, 0)`, horizontal) has its only
in-bounds neighbour slot blocked by ship 1 at `(2, 0)`: moving `-1` leaves
the grid and moving `+1` collides. -/
def blockedBoard : Board :=
  { size := 10
    ships := [{ length := 1, tp := 1, x := 0, y := 0, is_move := true, cells := [true] },
              { length := 1, tp := 1, x := 2, y := 0, is_move := true, cells := [true] }] }

/-- `oneShipBoard`'s ship after its single cell has been struck. -/
def struckShip : Ship :=
  { length := 1, tp := 1, x := 3, y := 3, is_move := false, cells := [false] }

/-! ### The board invariant maintained by placement, movement and hits -/

/-- The checked placement conditions: every tracked ship passes
`is_out_board` and any two distinct tracked ships pass `is_collide`. -/
def Board.Inv (b : Board) : Prop :=
  (∀ (i : Nat) (si : Ship), b.ships[i]? = some si → si.is_out_board b.size = false) ∧
  (∀ (i j : Nat) (si sj : Ship), i ≠ j → b.ships[i]? = some si → b.ships[j]? = some sj →
    si.is_collide sj = false)

/-! ## Ship-level lemmas -/

namespace Ship

theorem get_finish_coords_eq (s : Ship) :
    s.get_finish_coords =
      if s.tp = 1 then (s.x + s.length, s.y + 1) else (s.x + 1, s.y + s.length) := by
  unfold get_finish_coords
  split <;> rfl

theorem start_le_finish (s : Ship) :
    s.x ≤ s.get_finish_coords.1 ∧ s.y ≤ s.get_finish_coords.2 := by
  rw [get_finish_coords_eq]
  by_cases h : s.tp = 1 <;> simp [h]

theorem is_collide_iff {s t : Ship} :
    s.is_collide t = true ↔
      s.x ≤ t.get_finish_coords.1 ∧ t.x ≤ s.get_finish_coords.1 ∧
      s.y ≤ t.get_finish_coords.2 ∧ t.y ≤ s.get_finish_coords.2 := by
  simp [is_collide, ge_iff_le, and_assoc]

theorem is_collide_symm (s t : Ship) : s.is_collide t = t.is_collide s := by
  rcases h : t.is_collide s with _ | _
  · rcases h2 : s.is_collide t with _ | _
    · rfl
    · rw [is_collide_iff] at h2
      have := (Bool.not_eq_true _).mpr h
      rw [show (¬ t.is_collide s = true) ↔ _ from not_congr is_collide_iff] at this
      tauto
  · rw [is_collide_iff] at h ⊢
    tauto

theorem is_out_board_eq_false_iff {s : Ship} {size : Nat} :
    s.is_out_board size = false ↔
      0 ≤ s.x ∧ s.x < (size : Int) ∧ 0 ≤ s.y ∧ s.y < (size : Int) ∧
      0 ≤ s.get_finish_coords.1 ∧ s.get_finish_coords.1 < (size : Int) ∧
      0 ≤ s.get_finish_coords.2 ∧ s.get_finish_coords.2 < (size : Int) := by
  simp [is_out_board, and_assoc]

theorem occupies_iff {s : Ship} {y x : Int} :
    s.occupies y x = true ↔
      s.y ≤ y ∧ y < s.get_finish_coords.2 ∧ s.x ≤ x ∧ x < s.get_finish_coords.1 := by
  simp [occupies, and_assoc]

/-- An occupied position is strictly inside the grid: both coordinates lie
in `[0, size - 1)` when the ship passes the bounds check. -/
theorem occupies_in_bounds {s : Ship} {size : Nat} (h : s.is_out_board size = false)
    {y x : Int} (ho : s.occupies y x = true) :
    0 ≤ x ∧ x < (size : Int) - 1 ∧ 0 ≤ y ∧ y < (size : Int) - 1 := by
  rw [is_out_board_eq_false_iff] at h
  rw [occupies_iff] at ho
  omega

theorem collide_of_occupies {s t : Ship} {y x : Int}
    (hs : s.occupies y x = true) (ht : t.occupies y x = true) :
    s.is_collide t = true := by
  rw [is_collide_iff]
  rw [occupies_iff] at hs ht
  omega

theorem move_some {s : Ship} {dir : Int} {s' : Ship} (h : s.move dir = some s') :
    s'.is_move = s.is_move ∧ s'.cells = s.cells ∧ s'.length = s.length ∧ s'.tp = s.tp := by
  unfold move at h
  split at h
  · exact absurd h (by simp)
  · split at h <;> cases h <;> exact ⟨rfl, rfl, rfl, rfl⟩

theorem move_of_immovable {s : Ship} (h : s.is_move = false) (dir : Int) :
    s.move dir = none := by
  unfold move
  rw [if_pos h]

/-- The ship updated by a strike (`Cell.hit` + `Ship.hurt`) keeps all of its
geometry, so the geometric queries are unchanged. -/
theorem strike_finish (s : Ship) (k : Nat) :
    ({ s.hurt with cells := s.cells.set k false } : Ship).get_finish_coords =
      s.get_finish_coords := rfl

theorem strike_out_board (s : Ship) (k : Nat) (size : Nat) :
    ({ s.hurt with cells := s.cells.set k false } : Ship).is_out_board size =
      s.is_out_board size := rfl

theorem strike_occupies (s : Ship) (k : Nat) (y x : Int) :
    ({ s.hurt with cells := s.cells.set k false } : Ship).occupies y x =
      s.occupies y x := rfl

theorem strike_collide_left (s : Ship) (k : Nat) (t : Ship) :
    ({ s.hurt with cells := s.cells.set k false } : Ship).is_collide t =
      s.is_collide t := rfl

theorem strike_collide_right (s : Ship) (k : Nat) (t : Ship) :
    t.is_collide { s.hurt with cells := s.cells.set k false } =
      t.is_collide s := rfl

theorem set_start_coords_twice (s : Ship) (a b c d : Int) :
    (s.set_start_coords a b).set_start_coords c d = s.set_start_coords c d := rfl

end Ship

/-! ## Location-check lemmas -/

namespace Board

theorem collideAnyExcl_eq_false {s : Ship} :
    ∀ {rest : List Ship} {j i : Nat}, collideAnyExcl s rest j i = false →
      ∀ (d : Nat) (t : Ship), rest[d]? = some t → j + d ≠ i → s.is_collide t = false := by
  intro rest
  induction rest with
  | nil => intro j i _ d t hdt; simp at hdt
  | cons hd tl ih =>
    intro j i h d t hdt hne
    unfold collideAnyExcl at h
    rw [Bool.or_eq_false_iff] at h
    obtain ⟨h1, h2⟩ := h
    cases d with
    | zero =>
      simp only [List.getElem?_cons_zero, Option.some.injEq] at hdt
      subst hdt
      rw [Bool.and_eq_false_iff] at h1
      rcases h1 with h1 | h1
      · exfalso
        have hji : j = i := by simpa using h1
        omega
      · exact h1
    | succ d' =>
      simp only [List.getElem?_cons_succ] at hdt
      exact ih h2 d' t hdt (by omega)

theorem check_location_excl_eq_false {b : Board} {i : Nat} {s : Ship}
    (h : b.check_location_excl i s = false) :
    s.is_out_board b.size = false ∧
      ∀ (j : Nat) (t : Ship), b.ships[j]? = some t → j ≠ i → s.is_collide t = false := by
  unfold check_location_excl at h
  rw [Bool.or_eq_false_iff] at h
  refine ⟨h.1, fun j t hj hne => collideAnyExcl_eq_false h.2 j t hj (by omega)⟩

theorem check_location_new_eq_false {b : Board} {s : Ship}
    (h : b.check_location_new s = false) :
    s.is_out_board b.size = false ∧ ∀ t ∈ b.ships, s.is_collide t = false := by
  unfold check_location_new at h
  rw [Bool.or_eq_false_iff] at h
  refine ⟨h.1, fun t ht => ?_⟩
  have h2 := h.2
  rw [List.any_eq_false] at h2
  exact Bool.eq_false_iff.mpr (h2 t ht)

/-! ## The invariant is established by placement and preserved by updates -/

theorem Inv.append {b : Board} {s : Ship} (hb : b.Inv)
    (hc : b.check_location_new s = false) :
    Board.Inv { b with ships := b.ships ++ [s] } := by
  obtain ⟨hout, hcol⟩ := hb
  obtain ⟨hsout, hscol⟩ := check_location_new_eq_false hc
  constructor
  · intro i si hi
    dsimp only at hi ⊢
    rw [List.getElem?_append] at hi
    split at hi
    · exact hout i si hi
    · rcases i0 : i - b.ships.length with _ | n
      · rw [i0] at hi
        simp only [List.getElem?_cons_zero, Option.some.injEq] at hi
        subst hi
        exact hsout
      · rw [i0] at hi
        simp at hi
  · intro i j si sj hne hi hj
    dsimp only at hi hj
    rw [List.getElem?_append] at hi hj
    have hone : ∀ (m : Nat) (t : Ship), ¬ m < b.ships.length →
        [s][m - b.ships.length]? = some t → t = s ∧ m = b.ships.length := by
      intro m t hm ht
      rcases m0 : m - b.ships.length with _ | n
      · rw [m0] at ht
        simp only [List.getElem?_cons_zero, Option.some.injEq] at ht
        exact ⟨ht.symm, by omega⟩
      · rw [m0] at ht
        simp at ht
    split at hi <;> split at hj
    · exact hcol i j si sj hne hi hj
    · obtain ⟨rfl, rfl⟩ := hone j sj (by assumption) hj
      rw [Ship.is_collide_symm]
      exact hscol si (List.mem_iff_getElem?.mpr ⟨i, hi⟩)
    · obtain ⟨rfl, rfl⟩ := hone i si (by assumption) hi
      exact hscol sj (List.mem_iff_getElem?.mpr ⟨j, hj⟩)
    · obtain ⟨rfl, rfl⟩ := hone i si (by assumption) hi
      obtain ⟨-, h2⟩ := hone j sj (by assumption) hj
      omega

theorem Inv.setShip {b : Board} {i : Nat} {s : Ship} (hb : b.Inv)
    (hc : b.check_location_excl i s = false) :
    Board.Inv { b with ships := b.ships.set i s } := by
  obtain ⟨hout, hcol⟩ := hb
  obtain ⟨hsout, hscol⟩ := check_location_excl_eq_false hc
  constructor
  · intro m sm hm
    dsimp only at hm ⊢
    rw [List.getElem?_set] at hm
    split at hm
    · split at hm
      · cases hm
        exact hsout
      · cases hm
    · exact hout m sm hm
  · intro m n sm sn hne hm hn
    dsimp only at hm hn
    rw [List.getElem?_set] at hm hn
    split at hm <;> split at hn
    · omega
    · split at hm
      · cases hm
        exact hscol n sn hn (by omega)
      · cases hm
    · split at hn
      · cases hn
        rw [Ship.is_collide_symm]
        exact hscol m sm hm (by omega)
      · cases hn
    · exact hcol m n sm sn hne hm hn

theorem placement_ship_spec :
    ∀ {cs : List (Int × Int)} {b : Board} {s : Ship} {b' : Board},
      b.placement_ship s cs = some b' →
      ∃ c : Int × Int, b.check_location_new (s.set_start_coords c.1 c.2) = false ∧
        b' = { b with ships := b.ships ++ [s.set_start_coords c.1 c.2] } := by
  intro cs
  induction cs with
  | nil => intro b s b' h; simp [placement_ship] at h
  | cons c cs ih =>
    intro b s b' h
    simp only [placement_ship] at h
    split at h
    · obtain ⟨c', h1, h2⟩ := ih h
      rw [Ship.set_start_coords_twice] at h1 h2
      exact ⟨c', h1, h2⟩
    · rename_i hcheck
      cases h
      exact ⟨c, Bool.eq_false_iff.mpr hcheck, rfl⟩

theorem placement_ship_inv {cs : List (Int × Int)} {b : Board} {s : Ship} {b' : Board}
    (h : b.placement_ship s cs = some b') (hb : b.Inv) : b'.Inv := by
  obtain ⟨c, h1, h2⟩ := placement_ship_spec h
  subst h2
  exact hb.append h1

theorem placement_ship_size {cs : List (Int × Int)} {b : Board} {s : Ship} {b' : Board}
    (h : b.placement_ship s cs = some b') : b'.size = b.size := by
  obtain ⟨c, -, h2⟩ := placement_ship_spec h
  subst h2
  rfl

theorem placeAll_inv :
    ∀ {l : List Ship} {cs : List (List (Int × Int))} {b b' : Board},
      b.placeAll l cs = some b' → b.Inv → b'.Inv ∧ b'.size = b.size := by
  intro l
  induction l with
  | nil =>
    intro cs b b' h hb
    cases cs <;> simp [placeAll] at h <;> subst h <;> exact ⟨hb, rfl⟩
  | cons s rest ih =>
    intro cs b b' h hb
    cases cs with
    | nil => simp [placeAll] at h
    | cons cshd cstl =>
      unfold placeAll at h
      split at h
      · cases h
      · rename_i b₁ hb₁
        obtain ⟨hinv, hsize⟩ := ih h (placement_ship_inv hb₁ hb)
        exact ⟨hinv, by rw [hsize, placement_ship_size hb₁]⟩

theorem create_inv {size : Nat} {tps : List Nat} {coords : List (List (Int × Int))}
    {b : Board} (h : Board.create size tps coords = some b) :
    b.Inv ∧ b.size = size := by
  have hempty : Board.Inv { size := size, ships := [] } := by
    constructor
    · intro i si hi
      simp at hi
    · intro i j si sj hne hi hj
      simp at hi
  exact placeAll_inv h hempty

/-! ## Movement lemmas -/

theorem moveAttempt_some {b : Board} {i : Nat} {dir : Int} {s' : Ship}
    (h : b.moveAttempt i dir = some s') :
    b.check_location_excl i s' = false ∧
      ∃ s, b.ships[i]? = some s ∧ s.move dir = some s' := by
  unfold moveAttempt at h
  split at h
  · cases h
  · rename_i s hs
    split at h
    · cases h
    · rename_i hmv
      split at h
      · cases h
      · cases h
        rename_i hchk
        exact ⟨Bool.eq_false_iff.mpr hchk, s, hs, hmv⟩

theorem moveAttempt_none_of_immovable {b : Board} {i : Nat} {s : Ship}
    (hi : b.ships[i]? = some s) (hm : s.is_move = false) (dir : Int) :
    b.moveAttempt i dir = none := by
  simp only [moveAttempt, hi, Ship.move_of_immovable hm]

theorem moveShipAt_cases (b : Board) (i : Nat) (dir : Int) :
    (b.moveShipAt i dir = b) ∨
      ∃ s', (b.moveAttempt i dir = some s' ∨ b.moveAttempt i (-dir) = some s') ∧
        b.moveShipAt i dir = { b with ships := b.ships.set i s' } := by
  rcases h1 : b.moveAttempt i dir with _ | s'
  · rcases h2 : b.moveAttempt i (-dir) with _ | s'
    · left
      unfold moveShipAt
      rw [h1, h2]
    · right
      refine ⟨s', Or.inr rfl, ?_⟩
      unfold moveShipAt
      rw [h1, h2]
  · right
    refine ⟨s', Or.inl rfl, ?_⟩
    unfold moveShipAt
    rw [h1]

theorem moveShipAt_inv {b : Board} {i : Nat} {dir : Int} (hb : b.Inv) :
    (b.moveShipAt i dir).Inv := by
  rcases moveShipAt_cases b i dir with h | ⟨s', hs', h⟩
  · rw [h]; exact hb
  · rw [h]
    rcases hs' with hs' | hs' <;> exact hb.setShip (moveAttempt_some hs').1

theorem moveShipAt_size (b : Board) (i : Nat) (dir : Int) :
    (b.moveShipAt i dir).size = b.size := by
  rcases moveShipAt_cases b i dir with h | ⟨s', -, h⟩ <;> rw [h]

theorem moveShipAt_of_immovable {b : Board} {i : Nat} {s : Ship}
    (hi : b.ships[i]? = some s) (hm : s.is_move = false) (dir : Int) :
    b.moveShipAt i dir = b := by
  unfold moveShipAt
  rw [moveAttempt_none_of_immovable hi hm, moveAttempt_none_of_immovable hi hm]

theorem moveShipAt_getElem_other {b : Board} {i j : Nat} (hne : j ≠ i) (dir : Int) :
    (b.moveShipAt i dir).ships[j]? = b.ships[j]? := by
  rcases moveShipAt_cases b i dir with h | ⟨s', -, h⟩
  · rw [h]
  · rw [h]
    exact List.getElem?_set_ne (by omega)

theorem move_ships_foldl_inv (dirs : List Int) :
    ∀ (L : List Nat) (b : Board), b.Inv →
      (L.foldl (fun bb i => bb.moveShipAt i (dirs.getD i 1)) b).Inv := by
  intro L
  induction L with
  | nil => intro b hb; exact hb
  | cons a L ih => intro b hb; exact ih _ (moveShipAt_inv hb)

theorem move_ships_inv {b : Board} {dirs : List Int} (hb : b.Inv) :
    (b.move_ships dirs).Inv :=
  move_ships_foldl_inv dirs _ b hb

theorem move_ships_foldl_size (dirs : List Int) :
    ∀ (L : List Nat) (b : Board),
      (L.foldl (fun bb i => bb.moveShipAt i (dirs.getD i 1)) b).size = b.size := by
  intro L
  induction L with
  | nil => intro b; rfl
  | cons a L ih => intro b; rw [List.foldl_cons, ih, moveShipAt_size]

theorem move_ships_size (b : Board) (dirs : List Int) :
    (b.move_ships dirs).size = b.size :=
  move_ships_foldl_size dirs _ b

/-- A ship whose movement flag is down is left completely untouched by the
whole movement phase: each loop iteration either concerns a different index
or fails both guarded attempts at once. -/
theorem move_ships_foldl_immovable {j : Nat} {s : Ship} (dirs : List Int)
    (hm : s.is_move = false) :
    ∀ (L : List Nat) (b : Board), b.ships[j]? = some s →
      (L.foldl (fun bb i => bb.moveShipAt i (dirs.getD i 1)) b).ships[j]? = some s := by
  intro L
  induction L with
  | nil => intro b hb; exact hb
  | cons a L ih =>
    intro b hb
    rw [List.foldl_cons]
    refine ih _ ?_
    by_cases hja : j = a
    · subst hja
      rw [moveShipAt_of_immovable hb hm]
      exact hb
    · rw [moveShipAt_getElem_other hja]
      exact hb

theorem move_ships_immovable {b : Board} {j : Nat} {s : Ship} {dirs : List Int}
    (hb : b.ships[j]? = some s) (hm : s.is_move = false) :
    (b.move_ships dirs).ships[j]? = some s :=
  move_ships_foldl_immovable dirs hm _ b hb

/-! ## Cell lookup and hit lemmas -/

theorem findCell_sound :
    ∀ (l : List Ship) (j : Nat) (y x : Int) (acc : Option (Nat × Ship × Nat))
      (r : Nat × Ship × Nat), findCell l j y x acc = some r →
      acc = some r ∨
        ∃ d s, l[d]? = some s ∧ s.occupies y x = true ∧ r = (j + d, s, s.cellIndex y x) := by
  intro l
  induction l with
  | nil => intro j y x acc r h; exact Or.inl h
  | cons hd tl ih =>
    intro j y x acc r h
    unfold findCell at h
    rcases ih _ _ _ _ _ h with hacc | ⟨d, s, hds, hocc, hr⟩
    · split at hacc
      · rename_i hochd
        cases hacc
        exact Or.inr ⟨0, hd, by simp, hochd, by simp⟩
      · exact Or.inl hacc
    · refine Or.inr ⟨d + 1, s, by simpa using hds, hocc, ?_⟩
      rw [hr]
      congr 1
      omega

theorem findCell_acc {y x : Int} :
    ∀ (l : List Ship) (j : Nat) (acc : Option (Nat × Ship × Nat)),
      (∀ t ∈ l, t.occupies y x = false) → findCell l j y x acc = acc := by
  intro l
  induction l with
  | nil => intro j acc _; rfl
  | cons hd tl ih =>
    intro j acc hall
    unfold findCell
    rw [if_neg (by rw [hall hd (List.mem_cons_self hd tl)]; simp), ih _ _
      (fun t ht => hall t (List.mem_cons_of_mem hd ht))]

theorem cellAt_sound {b : Board} {y x : Int} {i : Nat} {s : Ship} {k : Nat}
    (h : b.cellAt y x = some (i, s, k)) :
    b.ships[i]? = some s ∧ s.occupies y x = true ∧ k = s.cellIndex y x := by
  rcases findCell_sound _ _ _ _ _ _ h with h0 | ⟨d, t, hd, ho, hr⟩
  · cases h0
  · rw [Prod.ext_iff] at hr
    obtain ⟨h1, hr2⟩ := hr
    rw [Prod.ext_iff] at hr2
    obtain ⟨h2, h3⟩ := hr2
    dsimp only at h1 h2 h3
    subst h2
    refine ⟨?_, ho, h3⟩
    rw [show i = d from by omega]
    exact hd

theorem cellAt_none {b : Board} {y x : Int}
    (h : ∀ t ∈ b.ships, t.occupies y x = false) : b.cellAt y x = none :=
  findCell_acc b.ships 0 none h

theorem hit_of_out {b : Board} {y x : Int}
    (h : ¬(0 ≤ x ∧ x < (b.size : Int) ∧ 0 ≤ y ∧ y < (b.size : Int))) :
    b.hit y x = (b, .indexError) := by
  unfold hit
  rw [if_pos h]

theorem hit_of_miss {b : Board} {y x : Int}
    (hin : 0 ≤ x ∧ x < (b.size : Int) ∧ 0 ≤ y ∧ y < (b.size : Int))
    (hc : b.cellAt y x = none) : b.hit y x = (b, .miss) := by
  unfold hit
  rw [if_neg (not_not_intro hin), hc]

theorem hit_of_struck {b : Board} {y x : Int} {i : Nat} {s : Ship} {k : Nat}
    (hin : 0 ≤ x ∧ x < (b.size : Int) ∧ 0 ≤ y ∧ y < (b.size : Int))
    (hc : b.cellAt y x = some (i, s, k)) (hd : s.cells.getD k true = false) :
    b.hit y x = (b, .shootError) := by
  unfold hit
  rw [if_neg (not_not_intro hin), hc]
  dsimp only
  rw [if_pos hd]

theorem hit_of_strike {b : Board} {y x : Int} {i : Nat} {s : Ship} {k : Nat}
    (hin : 0 ≤ x ∧ x < (b.size : Int) ∧ 0 ≤ y ∧ y < (b.size : Int))
    (hc : b.cellAt y x = some (i, s, k)) (ha : s.cells.getD k true = true) :
    b.hit y x =
      ({ b with ships := b.ships.set i { s.hurt with cells := s.cells.set k false } },
       if ({ s.hurt with cells := s.cells.set k false } : Ship).alive then
         .wounded else .sunk) := by
  unfold hit
  rw [if_neg (not_not_intro hin), hc]
  dsimp only
  rw [if_neg (by rw [ha]; simp)]

theorem hit_cases (b : Board) (y x : Int) :
    (b.hit y x).1 = b ∨
      ∃ i s k, b.cellAt y x = some (i, s, k) ∧ s.cells.getD k true = true ∧
        (b.hit y x).1 =
          { b with ships := b.ships.set i { s.hurt with cells := s.cells.set k false } } := by
  by_cases hin : 0 ≤ x ∧ x < (b.size : Int) ∧ 0 ≤ y ∧ y < (b.size : Int)
  · rcases hc : b.cellAt y x with _ | ⟨i, s, k⟩
    · left
      rw [hit_of_miss hin hc]
    · by_cases hd : s.cells.getD k true = false
      · left
        rw [hit_of_struck hin hc hd]
      · have ha : s.cells.getD k true = true := by
          rcases hv : s.cells.getD k true with _ | _
          · exact absurd hv hd
          · rfl
        exact Or.inr ⟨i, s, k, rfl, ha, by rw [hit_of_strike hin hc ha]⟩
  · left
    rw [hit_of_out hin]

theorem hit_size (b : Board) (y x : Int) : ((b.hit y x).1).size = b.size := by
  rcases hit_cases b y x with h | ⟨i, s, k, -, -, h⟩ <;> rw [h]

theorem hit_inv {b : Board} (y x : Int) (hb : b.Inv) : ((b.hit y x).1).Inv := by
  rcases hit_cases b y x with h | ⟨i, s, k, hc, -, h⟩
  · rw [h]; exact hb
  · rw [h]
    obtain ⟨hi, -, -⟩ := cellAt_sound hc
    obtain ⟨hout, hcol⟩ := hb
    constructor
    · intro m sm hm
      dsimp only at hm ⊢
      rw [List.getElem?_set] at hm
      split at hm
      · split at hm
        · cases hm
          rw [Ship.strike_out_board]
          rename_i him _
          subst him
          exact hout i s hi
        · cases hm
      · exact hout m sm hm
    · intro m n sm sn hne hm hn
      dsimp only at hm hn
      rw [List.getElem?_set] at hm hn
      split at hm <;> split at hn
      · omega
      · split at hm
        · cases hm
          rw [Ship.strike_collide_left]
          exact hcol i n s sn (by omega) hi hn
        · cases hm
      · split at hn
        · cases hn
          rw [Ship.strike_collide_right]
          exact hcol m i sm s (by omega) hm hi
        · cases hn
      · exact hcol m n sm sn hne hm hn

/-- A hit never moves any ship: each fleet slot keeps its geometry, and a
movement flag that is down stays down. -/
theorem hit_getElem_frame {b : Board} {y x : Int} {j : Nat} {t : Ship}
    (hj : b.ships[j]? = some t) :
    ∃ u, ((b.hit y x).1).ships[j]? = some u ∧ u.x = t.x ∧ u.y = t.y ∧
      u.tp = t.tp ∧ u.length = t.length ∧ (t.is_move = false → u.is_move = false) := by
  rcases hit_cases b y x with h | ⟨i, s, k, hc, -, h⟩
  · rw [h]
    exact ⟨t, hj, rfl, rfl, rfl, rfl, fun hh => hh⟩
  · rw [h]
    obtain ⟨hi, -, -⟩ := cellAt_sound hc
    by_cases hij : i = j
    · subst hij
      rw [hi] at hj
      cases hj
      obtain ⟨hlt, -⟩ := List.getElem?_eq_some.mp hi
      refine ⟨{ t.hurt with cells := t.cells.set k false }, ?_, rfl, rfl, rfl, rfl,
        fun _ => rfl⟩
      dsimp only
      exact List.getElem?_set_eq_of_lt _ hlt
    · dsimp only
      rw [List.getElem?_set_ne hij]
      exact ⟨t, hj, rfl, rfl, rfl, rfl, fun hh => hh⟩

end Board

/-! ## Preservation along operation sequences -/

theorem Board.applyOp_inv {b : Board} (hb : b.Inv) : ∀ op, (b.applyOp op).Inv
  | .moveShips _ => Board.move_ships_inv hb
  | .hit y x => Board.hit_inv y x hb

theorem Board.applyOp_size (b : Board) : ∀ op, (b.applyOp op).size = b.size
  | .moveShips dirs => Board.move_ships_size b dirs
  | .hit y x => Board.hit_size b y x

theorem Board.run_inv : ∀ (ops : List Op) (b : Board), b.Inv → (b.run ops).Inv := by
  intro ops
  induction ops with
  | nil => intro b hb; exact hb
  | cons op ops ih => intro b hb; exact ih _ (Board.applyOp_inv hb op)

theorem Board.run_size : ∀ (ops : List Op) (b : Board), (b.run ops).size = b.size := by
  intro ops
  induction ops with
  | nil => intro b; rfl
  | cons op ops ih =>
    intro b
    exact (ih (b.applyOp op)).trans (Board.applyOp_size b op)

theorem Board.applyOp_immovable {b : Board} {j : Nat} {t : Ship}
    (hj : b.ships[j]? = some t) (hm : t.is_move = false) :
    ∀ op, ∃ u, ((b.applyOp op).ships)[j]? = some u ∧ u.is_move = false ∧
      u.x = t.x ∧ u.y = t.y ∧ u.tp = t.tp ∧ u.length = t.length
  | .moveShips dirs => ⟨t, Board.move_ships_immovable hj hm, hm, rfl, rfl, rfl, rfl⟩
  | .hit y x => by
    obtain ⟨u, h1, h2, h3, h4, h5, h6⟩ := Board.hit_getElem_frame hj
    exact ⟨u, h1, h6 hm, h2, h3, h4, h5⟩

/-- A ship whose movement flag has dropped keeps its slot, geometry and dead
flag through any sequence of later `move_ships`/`hit` operations. -/
theorem Board.run_immovable {ops : List Op} :
    ∀ {b : Board} {j : Nat} {t : Ship}, b.ships[j]? = some t → t.is_move = false →
      ∃ u, ((b.run ops).ships)[j]? = some u ∧ u.is_move = false ∧
        u.x = t.x ∧ u.y = t.y ∧ u.tp = t.tp ∧ u.length = t.length := by
  induction ops with
  | nil => intro b j t hj hm; exact ⟨t, hj, hm, rfl, rfl, rfl, rfl⟩
  | cons op ops ih =>
    intro b j t hj hm
    obtain ⟨u, h1, h2, h3, h4, h5, h6⟩ := Board.applyOp_immovable hj hm op
    obtain ⟨v, g1, g2, g3, g4, g5, g6⟩ := ih h1 h2
    exact ⟨v, g1, g2, g3.trans h3, g4.trans h4, g5.trans h5, g6.trans h6⟩

/-! ## Fleet-shape lemmas -/

theorem map_eq_of_forall₂ {α β γ : Type} {R : α → β → Prop} {f : α → γ} {g : β → γ}
    (hfg : ∀ a b, R a b → f a = g b) :
    ∀ {l₁ : List α} {l₂ : List β}, List.Forall₂ R l₁ l₂ → l₁.map f = l₂.map g := by
  intro l₁
  induction l₁ with
  | nil =>
    intro l₂ h
    cases h
    rfl
  | cons a l ih =>
    intro l₂ h
    cases h with
    | cons hab htl =>
      dsimp only [List.map]
      rw [hfg a _ hab, ih htl]

theorem Board.placeAll_shape :
    ∀ {l : List Ship} {cs : List (List (Int × Int))} {b b' : Board},
      b.placeAll l cs = some b' →
      ∃ placed, b'.ships = b.ships ++ placed ∧
        List.Forall₂ (fun s t => ∃ p : Int × Int, t = s.set_start_coords p.1 p.2) l placed := by
  intro l
  induction l with
  | nil =>
    intro cs b b' h
    cases cs <;> simp [Board.placeAll] at h <;> subst h <;>
      exact ⟨[], by simp, List.Forall₂.nil⟩
  | cons s rest ih =>
    intro cs b b' h
    cases cs with
    | nil => simp [Board.placeAll] at h
    | cons cshd cstl =>
      unfold Board.placeAll at h
      split at h
      · cases h
      · rename_i b₁ hb₁
        obtain ⟨c, -, h2⟩ := Board.placement_ship_spec hb₁
        obtain ⟨placed, hps, hfa⟩ := ih h
        subst h2
        refine ⟨s.set_start_coords c.1 c.2 :: placed, ?_, List.Forall₂.cons ⟨c, rfl⟩ hfa⟩
        rw [hps]
        dsimp only
        rw [List.append_assoc]
        rfl

theorem Board.mkFleet_map_length {tps : List Nat} (h : tps.length = 10) :
    (Board.mkFleet tps).map Ship.length = Board.fleetLengths := by
  unfold Board.mkFleet
  rw [List.map_map]
  rw [show (Ship.length ∘ fun p : Nat × Nat => Ship.new p.1 p.2) = Prod.fst from rfl]
  exact List.map_fst_zip _ _ (by rw [h]; decide)

theorem Board.mkFleet_map_tp {tps : List Nat} (h : tps.length = 10) :
    (Board.mkFleet tps).map Ship.tp = tps := by
  unfold Board.mkFleet
  rw [List.map_map]
  rw [show (Ship.tp ∘ fun p : Nat × Nat => Ship.new p.1 p.2) = Prod.snd from rfl]
  exact List.map_snd_zip _ _ (by rw [h]; decide)

/-! ## Alive-after-strike characterisation -/

/-- After striking cell `k`, the owning ship is alive exactly when some
other cell index still holds an intact cell. -/
theorem Ship.alive_strike_iff (s : Ship) (k : Nat) :
    ({ s.hurt with cells := s.cells.set k false } : Ship).alive = true ↔
      ∃ j, j ≠ k ∧ s.cells[j]? = some true := by
  unfold Ship.alive
  dsimp only
  rw [List.any_eq_true]
  constructor
  · rintro ⟨c, hc, hid⟩
    have hct : c = true := by simpa using hid
    subst hct
    obtain ⟨j, hj⟩ := List.mem_iff_getElem?.mp hc
    rw [List.getElem?_set] at hj
    split at hj
    · split at hj
      · cases hj
      · cases hj
    · exact ⟨j, by omega, hj⟩
  · rintro ⟨j, hjk, hj⟩
    refine ⟨true, List.mem_iff_getElem?.mpr ⟨j, ?_⟩, rfl⟩
    rw [List.getElem?_set_ne (by omega)]
    exact hj

/-! ## Claim theorems -/

/-- C7: for any two ships with set start coordinates, `is_collide` returns
true exactly when the closed bounding boxes
`[start_x, finish_x] × [start_y, finish_y]` intersect, with
`finish = get_finish_coords` (start + (length, 1) horizontally,
start + (1, length) vertically). In particular a 4-length horizontal ship at
(0, 0) has finish (4, 1), passes `is_out_board 10`, and a 2-length
horizontal ship at (2, 0) collides with it. -/
theorem C7_collision_closed_box :
    (∀ s t : Ship, s.is_collide t = true ↔
      ∃ px py : Int,
        s.x ≤ px ∧ px ≤ s.get_finish_coords.1 ∧ t.x ≤ px ∧ px ≤ t.get_finish_coords.1 ∧
        s.y ≤ py ∧ py ≤ s.get_finish_coords.2 ∧ t.y ≤ py ∧ py ≤ t.get_finish_coords.2) ∧
    ((Ship.new 4 1).set_start_coords 0 0).get_finish_coords = (4, 1) ∧
    ((Ship.new 4 1).set_start_coords 0 0).is_out_board 10 = false ∧
    ((Ship.new 2 1).set_start_coords 2 0).is_collide
      ((Ship.new 4 1).set_start_coords 0 0) = true ∧
    ((Ship.new 4 1).set_start_coords 0 0).is_collide
      ((Ship.new 2 1).set_start_coords 2 0) = true := by
  refine ⟨?_, by decide, by decide, by decide, by decide⟩
  intro s t
  rw [Ship.is_collide_iff]
  obtain ⟨hsx, hsy⟩ := Ship.start_le_finish s
  obtain ⟨htx, hty⟩ := Ship.start_le_finish t
  constructor
  · rintro ⟨h1, h2, h3, h4⟩
    refine ⟨max s.x t.x, max s.y t.y, ?_, ?_, ?_, ?_, ?_, ?_, ?_, ?_⟩ <;> omega
  · rintro ⟨px, py, h⟩
    refine ⟨?_, ?_, ?_, ?_⟩ <;> omega

/-- C2: `Board.hit` yields `IndexBoardError` exactly when the row or column
is outside `[0, size)`; an in-bounds shot at an already-struck ship cell
yields `ShootError` instead of striking again; and in both error cases the
board (all ship positions and cell states) is returned unchanged. -/
theorem C2_hit_errors : ∀ (b : Board) (y x : Int),
    ((b.hit y x).2 = HitOutcome.indexError ↔
      ¬(0 ≤ x ∧ x < (b.size : Int) ∧ 0 ≤ y ∧ y < (b.size : Int))) ∧
    (∀ (i : Nat) (s : Ship) (k : Nat),
      (0 ≤ x ∧ x < (b.size : Int) ∧ 0 ≤ y ∧ y < (b.size : Int)) →
      b.cellAt y x = some (i, s, k) → s.cells.getD k true = false →
      (b.hit y x).2 = HitOutcome.shootError) ∧
    ((b.hit y x).2 = HitOutcome.indexError ∨ (b.hit y x).2 = HitOutcome.shootError →
      (b.hit y x).1 = b) := by
  intro b y x
  refine ⟨⟨?_, ?_⟩, ?_, ?_⟩
  · intro h
    by_cases hin : 0 ≤ x ∧ x < (b.size : Int) ∧ 0 ≤ y ∧ y < (b.size : Int)
    · exfalso
      rcases hc : b.cellAt y x with _ | ⟨i, s, k⟩
      · rw [Board.hit_of_miss hin hc] at h
        exact absurd h (by simp)
      · by_cases hd : s.cells.getD k true = false
        · rw [Board.hit_of_struck hin hc hd] at h
          exact absurd h (by simp)
        · have ha : s.cells.getD k true = true := by
            rcases hv : s.cells.getD k true with _ | _
            · exact absurd hv hd
            · rfl
          rw [Board.hit_of_strike hin hc ha] at h
          dsimp only at h
          split at h <;> exact absurd h (by simp)
    · exact hin
  · intro hout
    rw [Board.hit_of_out hout]
  · intro i s k hin hc hd
    rw [Board.hit_of_struck hin hc hd]
  · intro h
    by_cases hin : 0 ≤ x ∧ x < (b.size : Int) ∧ 0 ≤ y ∧ y < (b.size : Int)
    · rcases hc : b.cellAt y x with _ | ⟨i, s, k⟩
      · rw [Board.hit_of_miss hin hc]
      · by_cases hd : s.cells.getD k true = false
        · rw [Board.hit_of_struck hin hc hd]
        · have ha : s.cells.getD k true = true := by
            rcases hv : s.cells.getD k true with _ | _
            · exact absurd hv hd
            · rfl
          rw [Board.hit_of_strike hin hc ha] at h
          dsimp only at h
          rcases h with h | h <;> split at h <;> exact absurd h (by simp)
    · rw [Board.hit_of_out hin]

/-- Witness for C2 at concrete inputs: a repeated shot on the struck cell of
`oneShipStruck` fails with `ShootError` and leaves the board unchanged, and
an out-of-range shot fails with `IndexBoardError`. -/
theorem C2_hit_errors_witness :
    (oneShipStruck.hit 3 3).2 = HitOutcome.shootError ∧
    (oneShipStruck.hit 3 3).1 = oneShipStruck ∧
    (oneShipBoard.hit 12 3).2 = HitOutcome.indexError := by
  refine ⟨?_, ?_, ?_⟩
  · exact (C2_hit_errors oneShipStruck 3 3).2.1 0 struckShip 0 (by decide) (by decide)
      (by decide)
  · exact (C2_hit_errors oneShipStruck 3 3).2.2
      (Or.inr ((C2_hit_errors oneShipStruck 3 3).2.1 0 struckShip 0 (by decide) (by decide)
        (by decide)))
  · exact (C2_hit_errors oneShipBoard 12 3).1.mpr (by decide)

/-- C3: an in-bounds shot on an intact ship cell strikes it, reports
`wounded` exactly when the owning ship still has another intact cell and
`sunk` when it has none, and returns true; a shot on a background position
reports `miss` and returns false. In particular on a board whose only ship
has length 1 at (3, 3), `hit 3 3` returns true reporting `sunk`, and a
second `hit 3 3` fails with `ShootError`. -/
theorem C3_hit_outcomes :
    (∀ (b : Board) (y x : Int) (i : Nat) (s : Ship) (k : Nat),
      (0 ≤ x ∧ x < (b.size : Int) ∧ 0 ≤ y ∧ y < (b.size : Int)) →
      b.cellAt y x = some (i, s, k) → s.cells.getD k true = true →
      (b.hit y x).2.returnValue = some true ∧
      ((b.hit y x).2 = HitOutcome.wounded ↔ ∃ j, j ≠ k ∧ s.cells[j]? = some true) ∧
      ((b.hit y x).2 = HitOutcome.sunk ↔ ¬∃ j, j ≠ k ∧ s.cells[j]? = some true) ∧
      (b.hit y x).1 =
        { b with ships := b.ships.set i { s.hurt with cells := s.cells.set k false } }) ∧
    (∀ (b : Board) (y x : Int),
      (0 ≤ x ∧ x < (b.size : Int) ∧ 0 ≤ y ∧ y < (b.size : Int)) →
      b.cellAt y x = none →
      (b.hit y x).2 = HitOutcome.miss ∧ (b.hit y x).2.returnValue = some false ∧
        (b.hit y x).1 = b) ∧
    ((oneShipBoard.hit 3 3).2 = HitOutcome.sunk ∧
      (oneShipBoard.hit 3 3).2.returnValue = some true ∧
      (oneShipStruck.hit 3 3).2 = HitOutcome.shootError) := by
  refine ⟨?_, ?_, by decide, by decide, by decide⟩
  · intro b y x i s k hin hc ha
    rw [Board.hit_of_strike hin hc ha]
    dsimp only
    have hiff := Ship.alive_strike_iff s k
    rcases hal : ({ s.hurt with cells := s.cells.set k false } : Ship).alive with _ | _
    · rw [hal] at hiff
      have hP : ¬∃ j, j ≠ k ∧ s.cells[j]? = some true := fun hp => by
        have := hiff.mpr hp
        exact absurd this (by simp)
      rw [if_neg (by simp [hal])]
      refine ⟨rfl, ⟨fun h => absurd h (by simp), fun hp => absurd hp hP⟩,
        ⟨fun _ => hP, fun _ => rfl⟩, rfl⟩
    · have hP : ∃ j, j ≠ k ∧ s.cells[j]? = some true := hiff.mp hal
      rw [if_pos (by simp [hal])]
      refine ⟨rfl, ⟨fun _ => hP, fun _ => rfl⟩,
        ⟨fun h => absurd h (by simp), fun hnp => absurd hP hnp⟩, rfl⟩
  · intro b y x hin hc
    rw [Board.hit_of_miss hin hc]
    exact ⟨rfl, rfl, rfl⟩

/-- Witness for C3 at a concrete input: hitting the single intact cell of
`oneShipBoard` at (3, 3) sinks the ship (no other intact cell remains),
returns true, and produces exactly the struck board. -/
theorem C3_hit_outcomes_witness :
    (oneShipBoard.hit 3 3).2.returnValue = some true ∧
    (oneShipBoard.hit 3 3).2 = HitOutcome.sunk ∧
    (oneShipBoard.hit 3 3).1 = oneShipStruck := by
  obtain ⟨h1, -, h3, h4⟩ := C3_hit_outcomes.1 oneShipBoard 3 3 0
    { length := 1, tp := 1, x := 3, y := 3, is_move := true, cells := [true] } 0
    (by decide) (by decide) (by decide)
  refine ⟨h1, ?_, by rw [h4]; decide⟩
  refine h3.mpr ?_
  rintro ⟨j, hj, hcell⟩
  rcases j with _ | j
  · exact hj rfl
  · simp at hcell

/-- C5: in `move_ships`, each ship is tried in the drawn direction and, on a
guarded failure, in the opposite direction; if both guarded attempts fail
the ship's start coordinate is exactly the value it had before the loop
processed it (the whole board is unchanged); and whatever happens, the
processed ship's movement flag and cell damage state are never touched by
the move or by the rollback. -/
theorem C5_move_two_attempts_rollback : ∀ (b : Board) (i : Nat) (dir : Int),
    (b.moveAttempt i dir = none → b.moveAttempt i (-dir) = none →
      b.moveShipAt i dir = b) ∧
    (∀ s t : Ship, b.ships[i]? = some s → (b.moveShipAt i dir).ships[i]? = some t →
      t.is_move = s.is_move ∧ t.cells = s.cells ∧ t.length = s.length ∧ t.tp = s.tp) := by
  intro b i dir
  constructor
  · intro h1 h2
    unfold Board.moveShipAt
    rw [h1, h2]
  · intro s t hs ht
    rcases Board.moveShipAt_cases b i dir with h | ⟨s', hs', h⟩
    · rw [h] at ht
      rw [hs] at ht
      cases ht
      exact ⟨rfl, rfl, rfl, rfl⟩
    · rw [h] at ht
      dsimp only at ht
      obtain ⟨hlt, -⟩ := List.getElem?_eq_some.mp hs
      rw [List.getElem?_set_eq_of_lt _ hlt] at ht
      cases ht
      rcases hs' with hs' | hs' <;>
      · obtain ⟨-, s0, hs0, hmv⟩ := Board.moveAttempt_some hs'
        rw [hs0] at hs
        cases hs
        exact Ship.move_some hmv

/-- Witness for C5: on `blockedBoard`, ship 0's only legal neighbour slot is
occupied, both direction attempts fail and the board is unchanged; ship 1
moves successfully (to x = 3) with flag and cells untouched. -/
theorem C5_move_two_attempts_rollback_witness :
    blockedBoard.moveShipAt 0 1 = blockedBoard ∧
    ((Ship.mk 1 1 3 0 true [true]).is_move = (Ship.mk 1 1 2 0 true [true]).is_move ∧
      (Ship.mk 1 1 3 0 true [true]).cells = (Ship.mk 1 1 2 0 true [true]).cells ∧
      (Ship.mk 1 1 3 0 true [true]).length = (Ship.mk 1 1 2 0 true [true]).length ∧
      (Ship.mk 1 1 3 0 true [true]).tp = (Ship.mk 1 1 2 0 true [true]).tp) := by
  constructor
  · exact (C5_move_two_attempts_rollback blockedBoard 0 1).1 (by decide) (by decide)
  · exact (C5_move_two_attempts_rollback blockedBoard 1 1).2
      (Ship.mk 1 1 2 0 true [true]) (Ship.mk 1 1 3 0 true [true]) (by decide) (by decide)

/-- C4: a successful strike leaves the struck ship's movement flag false,
and once a ship's flag is false it stays false through any later sequence of
`move_ships`/`hit` operations, its start coordinate never changes again, and
every `Ship.move` on it fails with `ShipMoveError` (here `none`). -/
theorem C4_damaged_ship_never_moves :
    (∀ (b : Board) (y x : Int) (i : Nat) (s : Ship) (k : Nat),
      b.cellAt y x = some (i, s, k) → (b.hit y x).2.returnValue = some true →
      ∃ u, ((b.hit y x).1).ships[i]? = some u ∧ u.is_move = false) ∧
    (∀ (b : Board) (i : Nat) (s : Ship) (ops : List Op),
      b.ships[i]? = some s → s.is_move = false →
      ∃ u, ((b.run ops).ships)[i]? = some u ∧ u.is_move = false ∧
        u.x = s.x ∧ u.y = s.y ∧ ∀ d : Int, u.move d = none) := by
  constructor
  · intro b y x i s k hc hr
    by_cases hin : 0 ≤ x ∧ x < (b.size : Int) ∧ 0 ≤ y ∧ y < (b.size : Int)
    · by_cases hd : s.cells.getD k true = false
      · rw [Board.hit_of_struck hin hc hd] at hr
        simp [HitOutcome.returnValue] at hr
      · have ha : s.cells.getD k true = true := by
          rcases hv : s.cells.getD k true with _ | _
          · exact absurd hv hd
          · rfl
        obtain ⟨hi, -, -⟩ := Board.cellAt_sound hc
        obtain ⟨hlt, -⟩ := List.getElem?_eq_some.mp hi
        rw [Board.hit_of_strike hin hc ha]
        dsimp only
        exact ⟨_, List.getElem?_set_eq_of_lt _ hlt, rfl⟩
    · rw [Board.hit_of_out hin] at hr
      simp [HitOutcome.returnValue] at hr
  · intro b i s ops hi hm
    obtain ⟨u, h1, h2, h3, h4, -, -⟩ := Board.run_immovable hi hm
    exact ⟨u, h1, h2, h3, h4, fun d => Ship.move_of_immovable h2 d⟩

/-- Witness for C4: striking `oneShipBoard` at (3, 3) drops the ship's
movement flag; starting from the struck board, two movement phases and a
further miss leave the ship at (3, 3) with the flag still false and
`Ship.move` failing in both directions. -/
theorem C4_damaged_ship_never_moves_witness :
    (∃ u, ((oneShipBoard.hit 3 3).1).ships[0]? = some u ∧ u.is_move = false) ∧
    (∃ u, ((oneShipStruck.run
        [Op.moveShips [1], Op.moveShips [-1], Op.hit 2 2]).ships)[0]? = some u ∧
      u.is_move = false ∧ u.x = struckShip.x ∧ u.y = struckShip.y ∧
      ∀ d : Int, u.move d = none) := by
  constructor
  · exact C4_damaged_ship_never_moves.1 oneShipBoard 3 3 0
      (Ship.mk 1 1 3 3 true [true]) 0 (by decide) (by decide)
  · exact C4_damaged_ship_never_moves.2 oneShipStruck 0 struckShip
      [Op.moveShips [1], Op.moveShips [-1], Op.hit 2 2] (by decide) (by decide)

/-- C1: for every board built by `create` (which places the whole fleet) and
any sequence of subsequent `move_ships`/`hit` calls, every ship's occupied
cells lie within the grid bounds `[0, size)` and no two distinct ships'
occupied rectangles share a position. -/
theorem C1_board_invariant :
    ∀ (size : Nat) (tps : List Nat) (coords : List (List (Int × Int))) (b0 : Board)
      (ops : List Op), Board.create size tps coords = some b0 →
      (∀ (i : Nat) (s : Ship), (b0.run ops).ships[i]? = some s →
        ∀ y x : Int, s.occupies y x = true →
          0 ≤ x ∧ x < (size : Int) ∧ 0 ≤ y ∧ y < (size : Int)) ∧
      (∀ (i j : Nat) (si sj : Ship), i ≠ j →
        (b0.run ops).ships[i]? = some si → (b0.run ops).ships[j]? = some sj →
        ∀ y x : Int, ¬(si.occupies y x = true ∧ sj.occupies y x = true)) := by
  intro size tps coords b0 ops hcreate
  obtain ⟨hinv0, hsize0⟩ := Board.create_inv hcreate
  obtain ⟨hout, hcol⟩ := Board.run_inv ops b0 hinv0
  have hsize : (b0.run ops).size = size := by rw [Board.run_size ops b0, hsize0]
  constructor
  · intro i s hi y x ho
    have h1 := hout i s hi
    rw [hsize] at h1
    have h2 := Ship.occupies_in_bounds h1 ho
    omega
  · intro i j si sj hne hi hj y x h
    obtain ⟨ho1, ho2⟩ := h
    have h1 := hcol i j si sj hne hi hj
    rw [Ship.collide_of_occupies ho1 ho2] at h1
    cases h1

/-- Witness for C1 after constructing `sampleBoard` and applying a hit:
position (0, 2) of the struck length-4 ship is in bounds, and ships 0 and 1
do not both occupy position (row 0, column 7). -/
theorem C1_board_invariant_witness :
    (0 ≤ (2 : Int) ∧ (2 : Int) < ((10 : Nat) : Int) ∧ 0 ≤ (0 : Int) ∧
      (0 : Int) < ((10 : Nat) : Int)) ∧
    ¬((Ship.mk 4 1 0 0 false [false, true, true, true]).occupies 0 7 = true ∧
      (Ship.mk 3 1 6 0 true [true, true, true]).occupies 0 7 = true) := by
  have h := C1_board_invariant 10 sampleTps sampleCoords sampleBoard [Op.hit 0 0] rfl
  constructor
  · exact h.1 0 (Ship.mk 4 1 0 0 false [false, true, true, true]) (by decide) 0 2 (by decide)
  · exact h.2 0 1 (Ship.mk 4 1 0 0 false [false, true, true, true])
      (Ship.mk 3 1 6 0 true [true, true, true]) (by decide) (by decide) (by decide) 0 7

/-- C6: immediately after `create` (hence after every `Board.__init__`), the
board owns exactly ten ships — one of length 4, two of length 3, three of
length 2, four of length 1 — and each ship's horizontal/vertical orientation
equals its own independent random draw from `tps`. -/
theorem C6_fleet_composition :
    ∀ (size : Nat) (tps : List Nat) (coords : List (List (Int × Int))) (b : Board),
      tps.length = 10 → Board.create size tps coords = some b →
      b.ships.length = 10 ∧
      (b.ships.filter fun s => s.length == 4).length = 1 ∧
      (b.ships.filter fun s => s.length == 3).length = 2 ∧
      (b.ships.filter fun s => s.length == 2).length = 3 ∧
      (b.ships.filter fun s => s.length == 1).length = 4 ∧
      b.ships.map Ship.tp = tps := by
  intro size tps coords b htps hcreate
  obtain ⟨placed, hships, hfa⟩ := Board.placeAll_shape hcreate
  rw [List.nil_append] at hships
  have hlen : b.ships.map Ship.length = Board.fleetLengths := by
    rw [hships, ← Board.mkFleet_map_length htps]
    refine (map_eq_of_forall₂ ?_ hfa).symm
    rintro a t ⟨p, hp⟩
    rw [hp]
    rfl
  have htp : b.ships.map Ship.tp = tps := by
    rw [hships, ← Board.mkFleet_map_tp htps]
    refine (map_eq_of_forall₂ ?_ hfa).symm
    rintro a t ⟨p, hp⟩
    rw [hp]
    rfl
  have hcount : ∀ n : Nat, (b.ships.filter fun s => s.length == n).length =
      (Board.fleetLengths.filter fun m => m == n).length := by
    intro n
    rw [← List.countP_eq_length_filter, ← List.countP_eq_length_filter, ← hlen,
      List.countP_map]
    rfl
  refine ⟨?_, ?_, ?_, ?_, ?_, htp⟩
  · have h := congrArg List.length hlen
    rw [List.length_map] at h
    rw [h]
    decide
  · rw [hcount 4]
    decide
  · rw [hcount 3]
    decide
  · rw [hcount 2]
    decide
  · rw [hcount 1]
    decide

/-- Witness for C6: the concretely constructed `sampleBoard` has the stated
fleet composition, with every orientation equal to its draw. -/
theorem C6_fleet_composition_witness :
    sampleBoard.ships.length = 10 ∧
    (sampleBoard.ships.filter fun s => s.length == 4).length = 1 ∧
    (sampleBoard.ships.filter fun s => s.length == 3).length = 2 ∧
    (sampleBoard.ships.filter fun s => s.length == 2).length = 3 ∧
    (sampleBoard.ships.filter fun s => s.length == 1).length = 4 ∧
    sampleBoard.ships.map Ship.tp = sampleTps :=
  C6_fleet_composition 10 sampleTps sampleCoords sampleBoard (by decide) rfl

/-- C8: in every state reachable from construction by `move_ships`/`hit`
calls, no ship cell occupies the last row (`size - 1`) or the last column
(`size - 1`) — the strict `finish < size` bounds check keeps ships off the
border — so every in-bounds hit aimed at that row or column reports a miss,
returns false, and leaves the board unchanged. -/
theorem C8_last_row_col_empty :
    ∀ (size : Nat) (tps : List Nat) (coords : List (List (Int × Int))) (b0 : Board)
      (ops : List Op) (y x : Int), Board.create size tps coords = some b0 →
      (∀ (i : Nat) (s : Ship), (b0.run ops).ships[i]? = some s →
        s.occupies ((size : Int) - 1) x = false ∧
        s.occupies y ((size : Int) - 1) = false) ∧
      ((0 ≤ x ∧ x < (size : Int)) →
        (b0.run ops).hit ((size : Int) - 1) x = (b0.run ops, HitOutcome.miss) ∧
        ((b0.run ops).hit ((size : Int) - 1) x).2.returnValue = some false) ∧
      ((0 ≤ y ∧ y < (size : Int)) →
        (b0.run ops).hit y ((size : Int) - 1) = (b0.run ops, HitOutcome.miss) ∧
        ((b0.run ops).hit y ((size : Int) - 1)).2.returnValue = some false) := by
  intro size tps coords b0 ops y x hcreate
  obtain ⟨hinv0, hsize0⟩ := Board.create_inv hcreate
  obtain ⟨hout, -⟩ := Board.run_inv ops b0 hinv0
  have hsize : (b0.run ops).size = size := by rw [Board.run_size ops b0, hsize0]
  have hocc : ∀ (i : Nat) (s : Ship), (b0.run ops).ships[i]? = some s →
      ∀ yy xx : Int, s.occupies yy xx = true →
        0 ≤ xx ∧ xx < (size : Int) - 1 ∧ 0 ≤ yy ∧ yy < (size : Int) - 1 := by
    intro i s hi yy xx ho
    have h1 := hout i s hi
    rw [hsize] at h1
    exact Ship.occupies_in_bounds h1 ho
  have hnrow : ∀ (i : Nat) (s : Ship), (b0.run ops).ships[i]? = some s →
      ∀ xx : Int, s.occupies ((size : Int) - 1) xx = false := by
    intro i s hi xx
    rcases hv : s.occupies ((size : Int) - 1) xx with _ | _
    · rfl
    · have h2 := hocc i s hi _ _ hv
      omega
  have hncol : ∀ (i : Nat) (s : Ship), (b0.run ops).ships[i]? = some s →
      ∀ yy : Int, s.occupies yy ((size : Int) - 1) = false := by
    intro i s hi yy
    rcases hv : s.occupies yy ((size : Int) - 1) with _ | _
    · rfl
    · have h2 := hocc i s hi _ _ hv
      omega
  refine ⟨fun i s hi => ⟨hnrow i s hi x, hncol i s hi y⟩, ?_, ?_⟩
  · intro hx
    have hc : (b0.run ops).cellAt ((size : Int) - 1) x = none := by
      refine Board.cellAt_none fun t ht => ?_
      obtain ⟨i, hi⟩ := List.mem_iff_getElem?.mp ht
      exact hnrow i t hi x
    have hin : 0 ≤ x ∧ x < (((b0.run ops).size : Nat) : Int) ∧
        0 ≤ (size : Int) - 1 ∧ (size : Int) - 1 < (((b0.run ops).size : Nat) : Int) := by
      rw [hsize]
      omega
    rw [Board.hit_of_miss hin hc]
    exact ⟨rfl, rfl⟩
  · intro hy
    have hc : (b0.run ops).cellAt y ((size : Int) - 1) = none := by
      refine Board.cellAt_none fun t ht => ?_
      obtain ⟨i, hi⟩ := List.mem_iff_getElem?.mp ht
      exact hncol i t hi y
    have hin : 0 ≤ (size : Int) - 1 ∧ (size : Int) - 1 < (((b0.run ops).size : Nat) : Int) ∧
        0 ≤ y ∧ y < (((b0.run ops).size : Nat) : Int) := by
      rw [hsize]
      omega
    rw [Board.hit_of_miss hin hc]
    exact ⟨rfl, rfl⟩

/-- Witness for C8: on the constructed `sampleBoard`, a shot at the last row
(9, 0) and one at the last column (0, 9) both miss and change nothing. -/
theorem C8_last_row_col_empty_witness :
    sampleBoard.hit 9 0 = (sampleBoard, HitOutcome.miss) ∧
    sampleBoard.hit 0 9 = (sampleBoard, HitOutcome.miss) := by
  have h := C8_last_row_col_empty 10 sampleTps sampleCoords sampleBoard [] 0 0 rfl
  exact ⟨(h.2.1 (by decide)).1, (h.2.2 (by decide)).1⟩

/-- C9 counterexample: the claim says the active player switches after
every shot; in `SeaBattle.start` the controller runs `_change_turn()` only
when the shot call returns a falsy value (`if not self._player_turn(...)`),
so after a first-attempt hit (`True`) the same player keeps the turn: with
the human to move and a successful shot, the turn stays `human`. -/
theorem C9_counterexample :
    (GameState.gameStep (GameState.mk (Board.mk 10 []) (Board.mk 10 []) Turn.human)
      (some true) [] []).turn = Turn.human := rfl

/-- C9 (amended): the controller keeps the turn with the same player only
when the shot call returned `True` (a first-attempt hit). After any
falsy-returning shot call the active player switches — that is both a miss
(`False`) and a retried call (`None`: the retry paths of `AI.shoot` and
`Human.shoot` discard the recursive result, so the turn switches even when
the retried shot itself hit) — and whenever the turn passes back to the
human it first triggers `move_ships` on both boards (the AI's board and the
human's board). -/
theorem C9_turn_change :
    ∀ (g : GameState) (hb ab : Board) (dirsAI dirsHuman : List Int),
      GameState.gameStep g (some true) dirsAI dirsHuman = g ∧
      GameState.gameStep (GameState.mk hb ab Turn.human) (some false) dirsAI dirsHuman =
        GameState.mk hb ab Turn.ai ∧
      GameState.gameStep (GameState.mk hb ab Turn.human) none dirsAI dirsHuman =
        GameState.mk hb ab Turn.ai ∧
      GameState.gameStep (GameState.mk hb ab Turn.ai) (some false) dirsAI dirsHuman =
        GameState.mk (hb.move_ships dirsHuman) (ab.move_ships dirsAI) Turn.human ∧
      GameState.gameStep (GameState.mk hb ab Turn.ai) none dirsAI dirsHuman =
        GameState.mk (hb.move_ships dirsHuman) (ab.move_ships dirsAI) Turn.human := by
  intro g hb ab a h
  exact ⟨rfl, rfl, rfl, rfl, rfl⟩

/-- C10 counterexample: the claim says the two-digit column 10 (e.g. the
entry "A10") is accepted; in the source `y, x = input(...).upper()` unpacks
the entry into exactly two characters, so the three-character entry "A10"
raises the caught `ValueError` and is rejected with a retry. -/
theorem C10_counterexample : parseShot ['A', '1', '0'] = none := rfl

/-- C10 (amended): `Human.shoot` accepts exactly the two-character entries
whose uppercased first character is an ASCII letter and whose second
character is a digit; an accepted entry maps to row = the letter's alphabet
position and column = digit - 1 (1-based to 0-based); every other entry
(including any two-digit column such as "10") is rejected and the prompt is
retried, leaving the attempt without effect. -/
theorem C10_input_parsing :
    (∀ s : List Char, (parseShot s).isSome = true ↔
      ∃ cy cx, s = [cy, cx] ∧ cy.toUpper ∈ asciiUppercase ∧ cx.toUpper.isDigit = true) ∧
    (∀ (cy cx : Char) (r : Nat) (c : Int), parseShot [cy, cx] = some (r, c) →
      asciiUppercase[r]? = some cy.toUpper ∧
        c = (cx.toUpper.toNat : Int) - ('0'.toNat : Int) - 1) ∧
    (∀ (b : Board) (s : List Char) (rest : List (List Char)), parseShot s = none →
      b.humanShootStep s = none ∧
      b.humanShoot (s :: rest) = ((b.humanShoot rest).1, none)) := by
  refine ⟨?_, ?_, ?_⟩
  · intro s
    match s with
    | [] =>
      rw [show parseShot [] = none from rfl]
      simp
    | [c1] =>
      rw [show parseShot [c1] = none from rfl]
      simp
    | c1 :: c2 :: c3 :: crest =>
      rw [show parseShot (c1 :: c2 :: c3 :: crest) = none from rfl]
      simp
    | [c1, c2] =>
      unfold parseShot
      dsimp only
      split
      · rename_i hcond
        simp only [Option.isSome_some, true_iff]
        exact ⟨c1, c2, rfl, hcond.1, hcond.2⟩
      · rename_i hcond
        constructor
        · intro h
          simp at h
        · rintro ⟨cy, cx, heq, h1, h2⟩
          obtain ⟨rfl, rfl⟩ : cy = c1 ∧ cx = c2 := by
            simpa using heq.symm
          exact absurd ⟨h1, h2⟩ hcond
  · intro cy cx r c h
    unfold parseShot at h
    dsimp only at h
    split at h
    · rename_i hcond
      rw [Option.some.injEq, Prod.ext_iff] at h
      obtain ⟨hr, hc⟩ := h
      dsimp only at hr hc
      subst hr
      subst hc
      refine ⟨?_, rfl⟩
      have hlt : asciiUppercase.indexOf cy.toUpper < asciiUppercase.length :=
        List.indexOf_lt_length.mpr hcond.1
      exact List.getElem?_eq_some.mpr ⟨hlt, List.getElem_indexOf hlt⟩
    · cases h
  · intro b s rest h
    have hstep : b.humanShootStep s = none := by
      unfold Board.humanShootStep
      rw [h]
    refine ⟨hstep, ?_⟩
    have hdef : b.humanShoot (s :: rest) =
        match b.humanShootStep s with
        | some br => (br.1, some br.2)
        | none => ((b.humanShoot rest).1, none) := rfl
    rw [hdef, hstep]

/-- Witness for C10 (amended): the entry "b3" is accepted and maps to row 1
(letter B) and column 2; the malformed entry "3B" is rejected and retried
without touching the board. -/
theorem C10_input_parsing_witness :
    (∃ cy cx, (['b', '3'] : List Char) = [cy, cx] ∧ cy.toUpper ∈ asciiUppercase ∧
      cx.toUpper.isDigit = true) ∧
    (asciiUppercase[1]? = some 'B' ∧ (2 : Int) = ('3'.toUpper.toNat : Int) -
      ('0'.toNat : Int) - 1) ∧
    (oneShipBoard.humanShootStep ['3', 'B'] = none ∧
      oneShipBoard.humanShoot [['3', 'B']] = ((oneShipBoard.humanShoot []).1, none)) := by
  refine ⟨?_, ?_, ?_⟩
  · exact (C10_input_parsing.1 ['b', '3']).mp (by decide)
  · have h := C10_input_parsing.2.1 'b' '3' 1 2 (by decide)
    exact ⟨by rw [h.1]; decide, h.2⟩
  · exact C10_input_parsing.2.2 oneShipBoard ['3', 'B'] [] (by decide)

end BattleSea
